import Mathlib

/-!
Verification of the tgbot news-ingestion pipeline
(src/rss_parser.py, src/llm.py, src/database.py).

Python strings are modelled as `List Char`; Python text operations are
translated character by character.  Machine integers and timestamps are
`Nat`/`Int` (timestamps in seconds), similarity ratios are `ℚ`.
External effects (HTTP calls to the LLM, content extraction) are passed
in explicitly as data describing the outcome of each call.
-/

namespace Tgbot

/-- Python strings, modelled as lists of characters. -/
abbrev Str := List Char

/-- Python regex `\s` over the ASCII range: space, tab, newline,
carriage return, vertical tab, form feed. -/
def isSpace (c : Char) : Bool :=
  c == ' ' || c == '\t' || c == '\n' || c == '\r' || c == '\x0b' || c == '\x0c'

/-- Python regex `\w` (word character): alphanumeric or underscore. -/
def isWordChar (c : Char) : Bool := c.isAlphanum || c == '_'

/-- Python `str.lower()`. -/
def lowerStr (s : Str) : Str := s.map Char.toLower

/-- Python `str.strip()`: drop leading and trailing whitespace. -/
def pyStrip (s : Str) : Str :=
  ((s.dropWhile isSpace).reverse.dropWhile isSpace).reverse

/-- Worker for `re.sub(r'\s+', ' ', s)`: `inRun` records whether the
current position is inside a whitespace run whose single replacement
space was already emitted. -/
def collapseWsAux (inRun : Bool) : Str → Str
  | [] => []
  | c :: rest =>
    if isSpace c then
      if inRun then collapseWsAux true rest
      else ' ' :: collapseWsAux true rest
    else c :: collapseWsAux false rest

/-- Python `re.sub(r'\s+', ' ', s)`: replace every maximal run of
whitespace characters by a single space. -/
def collapseWs (s : Str) : Str := collapseWsAux false s

/-- src/rss_parser.py `normalize_title`: lowercase, delete all digits
(`re.sub(r'\d+', '')`), delete all characters that are neither word
characters nor whitespace (`re.sub(r'[^\w\s]', '')`), collapse
whitespace runs to single spaces and strip the ends. -/
def normalize_title (title : Str) : Str :=
  if title = [] then []
  else
    let t1 := lowerStr title
    let t2 := t1.filter (fun c => !c.isDigit)
    let t3 := t2.filter (fun c => isWordChar c || isSpace c)
    pyStrip (collapseWs t3)

/-! Auxiliary lemmas about the pieces of `normalize_title`. -/

theorem mem_collapseWsAux {c : Char} :
    ∀ {b : Bool} {l : Str}, c ∈ collapseWsAux b l → c = ' ' ∨ (c ∈ l ∧ isSpace c = false) := by
  intro b l
  induction l generalizing b with
  | nil => intro h; simp [collapseWsAux] at h
  | cons a rest ih =>
    intro h
    rw [collapseWsAux] at h
    split at h
    · split at h
      · rcases ih h with h | h
        · exact Or.inl h
        · exact Or.inr ⟨List.mem_cons_of_mem _ h.1, h.2⟩
      · rcases List.mem_cons.1 h with h | h
        · exact Or.inl h
        · rcases ih h with h | h
          · exact Or.inl h
          · exact Or.inr ⟨List.mem_cons_of_mem _ h.1, h.2⟩
    · rcases List.mem_cons.1 h with h | h
      · subst h
        rename_i hns
        exact Or.inr ⟨List.mem_cons_self _ _, Bool.eq_false_iff.2 hns⟩
      · rcases ih h with h | h
        · exact Or.inl h
        · exact Or.inr ⟨List.mem_cons_of_mem _ h.1, h.2⟩

theorem mem_collapseWs {c : Char} {l : Str} (h : c ∈ collapseWs l) :
    c = ' ' ∨ (c ∈ l ∧ isSpace c = false) :=
  mem_collapseWsAux h

theorem head?_dropWhile_not {p : Char → Bool} :
    ∀ {l : Str} {c : Char}, (l.dropWhile p).head? = some c → p c = false := by
  intro l
  induction l with
  | nil => intro c h; simp [List.dropWhile] at h
  | cons a rest ih =>
    intro c h
    cases hp : p a with
    | true =>
      rw [List.dropWhile, hp] at h
      exact ih h
    | false =>
      rw [List.dropWhile, hp] at h
      simp only [List.head?_cons, Option.some.injEq] at h
      subst h
      exact hp

/-- Inside a run whose space was already emitted, the next emitted
character is not whitespace. -/
theorem collapseWsAux_true_head?_not_space :
    ∀ {l : Str} {c : Char}, (collapseWsAux true l).head? = some c → isSpace c = false := by
  intro l
  induction l with
  | nil => intro c h; simp [collapseWsAux] at h
  | cons a rest ih =>
    intro c h
    rw [collapseWsAux] at h
    split at h
    · rw [if_pos rfl] at h
      exact ih h
    · simp only [List.head?_cons, Option.some.injEq] at h
      subst h
      rename_i hns
      exact Bool.eq_false_iff.2 hns

theorem chain'_collapseWsAux :
    ∀ (b : Bool) (l : Str),
      (collapseWsAux b l).Chain' (fun a b => ¬(isSpace a = true ∧ isSpace b = true)) := by
  intro b l
  induction l generalizing b with
  | nil => simp [collapseWsAux]
  | cons a rest ih =>
    rw [collapseWsAux]
    split
    · split
      · exact ih true
      · rw [List.chain'_cons']
        refine ⟨?_, ih true⟩
        intro d hd hcon
        have : isSpace d = false := collapseWsAux_true_head?_not_space hd
        rw [this] at hcon
        exact Bool.false_ne_true hcon.2
    · rw [List.chain'_cons']
      refine ⟨?_, ih false⟩
      intro d hd hcon
      rename_i hns
      exact hns hcon.1

theorem chain'_collapseWs (l : Str) :
    (collapseWs l).Chain' (fun a b => ¬(isSpace a = true ∧ isSpace b = true)) :=
  chain'_collapseWsAux false l

theorem pyStrip_subset {s : Str} : pyStrip s ⊆ s := by
  intro c hc
  unfold pyStrip at hc
  rw [List.mem_reverse] at hc
  have h1 := (List.dropWhile_sublist (l := (s.dropWhile isSpace).reverse) isSpace).subset hc
  rw [List.mem_reverse] at h1
  exact (List.dropWhile_sublist (l := s) isSpace).subset h1

theorem pyStrip_chain' {R : Char → Char → Prop} (_hR : ∀ a b, R a b → R b a)
    {s : Str} (h : s.Chain' R) : (pyStrip s).Chain' R := by
  unfold pyStrip
  have h1 : (s.dropWhile isSpace).Chain' R := h.suffix (List.dropWhile_suffix _)
  have h2 : ((s.dropWhile isSpace).reverse).Chain' (flip R) := by
    rw [List.chain'_reverse]
    exact h1
  have h3 : (((s.dropWhile isSpace).reverse.dropWhile isSpace)).Chain' (flip R) :=
    h2.suffix (List.dropWhile_suffix _)
  rw [List.chain'_reverse]
  exact h3

theorem prefix_head?_eq {p l : Str} (h : p <+: l) (hne : p ≠ []) : p.head? = l.head? := by
  rcases h with ⟨t, rfl⟩
  match p, hne with
  | a :: p', _ => simp

theorem pyStrip_prefix {s : Str} : pyStrip s <+: s.dropWhile isSpace := by
  have h2 := List.reverse_prefix.2
    (List.dropWhile_suffix (l := (s.dropWhile isSpace).reverse) isSpace)
  rwa [List.reverse_reverse] at h2

theorem pyStrip_head?_not_space {s : Str} {c : Char}
    (h : (pyStrip s).head? = some c) : isSpace c = false := by
  have hne : pyStrip s ≠ [] := by
    intro he
    rw [he] at h
    simp at h
  rw [prefix_head?_eq pyStrip_prefix hne] at h
  exact head?_dropWhile_not h

theorem pyStrip_getLast?_not_space {s : Str} {c : Char}
    (h : (pyStrip s).getLast? = some c) : isSpace c = false := by
  unfold pyStrip at h
  rw [List.getLast?_reverse] at h
  exact head?_dropWhile_not h

/-- Lean's `Char.ofNat` agrees with `Nat` values below 123 (needed only
for ASCII reasoning about `Char.toLower`). -/
theorem char_toNat_ofNat_small : ∀ n : Nat, n < 123 → (Char.ofNat n).toNat = n := by
  decide

theorem char_ofNat_small_not_upper :
    ∀ n : Nat, n < 123 → 96 < n → (Char.ofNat n).isUpper = false := by
  decide

theorem toLower_not_upper (c : Char) : (Char.toLower c).isUpper = false := by
  show (if c.toNat ≥ 65 ∧ c.toNat ≤ 90 then Char.ofNat (c.toNat + 32) else c).isUpper = false
  split
  · rename_i h
    exact char_ofNat_small_not_upper (c.toNat + 32) (by omega) (by omega)
  · rename_i h
    have h65 : ((65 : UInt32) ≤ c.val) ↔ 65 ≤ c.toNat := by
      rw [UInt32.le_def, BitVec.le_def]
      exact Iff.rfl
    have h90 : (c.val ≤ (90 : UInt32)) ↔ c.toNat ≤ 90 := by
      rw [UInt32.le_def, BitVec.le_def]
      exact Iff.rfl
    unfold Char.isUpper
    rcases Decidable.em ((65 : UInt32) ≤ c.val) with hu | hu
    · rcases Decidable.em (c.val ≤ (90 : UInt32)) with hv | hv
      · exact absurd ⟨h65.1 hu, h90.1 hv⟩ h
      · simp [decide_eq_false hv]
    · simp [decide_eq_false hu]

theorem mem_lowerStr_not_upper {s : Str} {c : Char} (h : c ∈ lowerStr s) :
    c.isUpper = false := by
  rcases List.mem_map.1 h with ⟨a, _, rfl⟩
  exact toLower_not_upper a

/-- Claim C8: for every title (including the empty one), `normalize_title`
yields a string with no digits, only word characters and single spaces
(hence no punctuation), no two adjacent whitespace characters, no
uppercase ASCII letters, and no leading or trailing whitespace; the
empty title maps to the empty string. -/
theorem normalize_title_props (t : Str) :
    (∀ c ∈ normalize_title t, c.isDigit = false)
    ∧ (∀ c ∈ normalize_title t, isWordChar c = true ∨ c = ' ')
    ∧ (normalize_title t).Chain' (fun a b => ¬(isSpace a = true ∧ isSpace b = true))
    ∧ (∀ c ∈ normalize_title t, c.isUpper = false)
    ∧ (∀ c, (normalize_title t).head? = some c → isSpace c = false)
    ∧ (∀ c, (normalize_title t).getLast? = some c → isSpace c = false)
    ∧ normalize_title ([] : Str) = [] := by
  by_cases ht : t = []
  · subst ht
    simp [normalize_title]
  · unfold normalize_title
    rw [if_neg ht]
    simp only []
    set t1 := lowerStr t with ht1
    set t2 := t1.filter (fun c => !c.isDigit) with ht2
    set t3 := t2.filter (fun c => isWordChar c || isSpace c) with ht3
    have hmem : ∀ c ∈ pyStrip (collapseWs t3), c = ' ' ∨ (c ∈ t3 ∧ isSpace c = false) := by
      intro c hc
      exact mem_collapseWs (pyStrip_subset hc)
    refine ⟨?_, ?_, ?_, ?_, ?_, ?_, by simp [normalize_title]⟩
    · intro c hc
      rcases hmem c hc with rfl | hc3
      · decide
      · have h2 : c ∈ t2 := List.mem_of_mem_filter hc3.1
        have := List.of_mem_filter h2
        simpa using this
    · intro c hc
      rcases hmem c hc with rfl | hc3
      · right; rfl
      · have := List.of_mem_filter hc3.1
        rcases Bool.or_eq_true_iff.1 this with hw | hs
        · exact Or.inl hw
        · rw [hs] at hc3
          exact absurd hc3.2 (by simp)
    · exact pyStrip_chain' (fun a b hab h => hab ⟨h.2, h.1⟩) (chain'_collapseWs t3)
    · intro c hc
      rcases hmem c hc with rfl | hc3
      · decide
      · have h2 : c ∈ t2 := List.mem_of_mem_filter hc3.1
        have h1 : c ∈ t1 := List.mem_of_mem_filter h2
        exact mem_lowerStr_not_upper h1
    · intro c hc
      exact pyStrip_head?_not_space hc
    · intro c hc
      exact pyStrip_getLast?_not_space hc

/-! ## Topic classifier (src/rss_parser.py `detect_topic` and friends) -/

/-- Python `needle in hay` on strings: contiguous-substring containment. -/
def pyIn (needle hay : Str) : Bool := decide (needle <:+: hay)

/-- Word-ness of an optional character for `\b`: an absent character
(string edge) counts as a non-word character. -/
def wordness : Option Char → Bool
  | none => false
  | some c => isWordChar c

/-- A `\b` word boundary holds between two (optional) characters iff
exactly one side is a word character. -/
def isBoundary (l r : Option Char) : Bool := wordness l != wordness r

/-- Does the regex `\b w \b` (with `w` escaped, hence literal) match at
the current position, where `prev` is the character just before the
position and `rest` the remaining text? -/
def wordMatchHere (w : Str) (prev : Option Char) (rest : Str) : Bool :=
  match w with
  | [] => isBoundary prev rest.head?
  | _ :: _ =>
    w.isPrefixOf rest && isBoundary prev w.head? &&
      isBoundary w.getLast? (rest.drop w.length).head?

/-- Scan of `re.search(rf'\b{re.escape(word)}\b', text)` over all
positions of the text. -/
def wordSearch (w : Str) (prev : Option Char) (t : Str) : Bool :=
  wordMatchHere w prev t ||
    match t with
    | [] => false
    | c :: rest => wordSearch w (some c) rest

/-- src/rss_parser.py `word_in_text` (local helper inside `detect_topic`):
whole-word regex search of `word` in `target_text`. -/
def word_in_text (word target_text : Str) : Bool :=
  wordSearch word none target_text

/-- One configured topic (an entry of the `TOPICS` dict): display title,
optional short name, keyword list and optional exclude list. -/
structure TopicData where
  title : Str
  name : Option Str
  keywords : List Str
  exclude : List Str

/-- The configuration constants consumed by the classifier and dedup
engine (src/config.py is not part of the sources; its values are inputs).
`topics` is the `TOPICS` dict as an ordered association list; dict keys
are unique (`keysNodup`), and every entity target names an existing topic
(`entitiesWF`; an ill-formed target would make the Python raise `KeyError`
and is outside the modelled behaviour). -/
structure Config where
  topics : List (Str × TopicData)
  entityTopic : List (Str × Str)
  politicsNegative : List Str
  belarusKeywords : List Str
  russiaRegions : List Str
  strictBelarusOnly : Bool
  highConfidenceThreshold : Int
  similarityThreshold : ℚ
  blacklistDomains : List Str
  blacklistKeywords : List Str
  maxNewsAgeHours : Int
  keysNodup : (topics.map Prod.fst).Nodup
  entitiesWF : ∀ p ∈ entityTopic, p.2 ∈ topics.map Prod.fst

/-- The `"politics"` topic id (the one receiving negative penalties). -/
def politicsId : Str := "politics".toList

/-- src/rss_parser.py `is_wrong_region`: true when the text mentions no
home-region keyword but mentions some other-region keyword. -/
def is_wrong_region (cfg : Config) (text0 : Str) : Bool :=
  let text := lowerStr text0
  if cfg.belarusKeywords.any (fun b => pyIn b text) then false
  else if !(cfg.russiaRegions.any (fun r => pyIn r text)) then false
  else true

/-- `scores[k] += d` on the scores dict (association list keyed like the
`TOPICS` dict). -/
def bump (m : List (Str × Int)) (k : Str) (d : Int) : List (Str × Int) :=
  m.map (fun p => if p.1 = k then (p.1, p.2 + d) else p)

/-- One iteration of the keyword-matching loop of `detect_topic`:
skip the topic when an exclude term occurs in the text, otherwise give
+2 per keyword whole-word-matched in the title, else +1 when matched in
the full text. -/
def topicKwStep (text titleLower : Str) (m : List (Str × Int))
    (entry : Str × TopicData) : List (Str × Int) :=
  if entry.2.exclude.any (fun ex => pyIn ex text) then m
  else
    entry.2.keywords.foldl (fun m' kw =>
      let kwl := lowerStr kw
      if word_in_text kwl titleLower then bump m' entry.1 2
      else if word_in_text kwl text then bump m' entry.1 1
      else m') m

/-- The scoring stage of `detect_topic` (src/rss_parser.py lines 110-147):
initialise every configured topic at 0, add +3 per matching entity,
run the keyword loop per topic, then subtract 2 per politics-negative
term present in the text from the politics topic. -/
def computeScores (cfg : Config) (title content : Str) : List (Str × Int) :=
  let text := lowerStr (title ++ ' ' :: content)
  let titleLower := lowerStr title
  let s0 := cfg.topics.map (fun p => (p.1, (0 : Int)))
  let s1 := cfg.entityTopic.foldl
    (fun m e => if pyIn e.1 text then bump m e.2 3 else m) s0
  let s2 := cfg.topics.foldl (topicKwStep text titleLower) s1
  let negCount : Int := (cfg.politicsNegative.filter (fun n => pyIn n text)).length
  s2.map (fun p => if p.1 = politicsId then (p.1, p.2 - 2 * negCount) else p)

/-- Outcome of one HTTP call to the LLM: `fail` covers transport errors,
timeouts and responses whose body cannot be read as JSON with a
`"response"` field; `ok r` is a successful call whose `"response"`
field is the text `r`. -/
inductive LLMCall where
  | fail : LLMCall
  | ok : Str → LLMCall
deriving DecidableEq

/-- src/llm.py `validate_topic`: on a successful call, answer whether
`"yes"` occurs in the lowercased, stripped response; on any exception
the `except` branch returns `True`. The prompt (title/content/topic
name) does not influence the returned value and is omitted. -/
def validate_topic (call : LLMCall) : Bool :=
  match call with
  | .fail => true
  | .ok r => pyIn "yes".toList (pyStrip (lowerStr r))

/-- `TOPICS[tid].get("name") or TOPICS[tid]["title"]` (Python `or`:
an absent or empty name falls back to the title). The `none` case of the
lookup is unreachable for ids drawn from the scores dict. -/
def topicNameOf (cfg : Config) (tid : Str) : Str :=
  match List.lookup tid cfg.topics with
  | some td =>
    match td.name with
    | some n => if n = [] then td.title else n
    | none => td.title
  | none => []

/-- Candidate ordering of `candidates.sort(key=lambda x: x[1], reverse=True)`:
score-descending; `List.insertionSort` with this relation is stable, as
Python's sort is. -/
def scoreGE (a b : Str × Int) : Prop := b.2 ≤ a.2

instance : DecidableRel scoreGE := fun a b => inferInstanceAs (Decidable (b.2 ≤ a.2))

instance : IsTotal (Str × Int) scoreGE := ⟨fun a b => le_total b.2 a.2⟩

instance : IsTrans (Str × Int) scoreGE := ⟨fun _ _ _ h1 h2 => le_trans h2 h1⟩

/-- src/rss_parser.py `detect_topic` (lines 96-179). `oracle` gives the
outcome of the LLM validation call for each queried topic display name.
The `try/except` around the call in the tie-break loop is dead code for
call failures, because `validate_topic` already catches every exception
internally and returns `True`; the model's `validate_topic` is total
accordingly. -/
def detect_topic (cfg : Config) (oracle : Str → LLMCall) (title content : Str) :
    Option Str :=
  let text := lowerStr (title ++ ' ' :: content)
  if cfg.strictBelarusOnly && is_wrong_region cfg text then none
  else
    let scores := computeScores cfg title content
    let candidates := scores.filter (fun p => decide (p.2 ≥ 2))
    if candidates.isEmpty then none
    else
      match List.insertionSort scoreGE candidates with
      | [] => none
      | top :: rest =>
        if top.2 ≥ cfg.highConfidenceThreshold then some top.1
        else
          match (top :: rest).take 2 |>.find?
              (fun p => validate_topic (oracle (topicNameOf cfg p.1))) with
          | some p => some p.1
          | none => some top.1

/-! ### Claim C4: the scoring stage in closed form -/

/-- Contribution of one keyword, per the spec: +2 for a whole-word match
in the title, else +1 for a whole-word match in the full text, else 0
(never both). -/
def kwAmount (text titleLower : Str) (kw : Str) : Int :=
  let kwl := lowerStr kw
  if word_in_text kwl titleLower then 2
  else if word_in_text kwl text then 1
  else 0

/-- Keyword score of one topic, per the spec: 0 when an exclude term
occurs in the text (keyword scoring skipped entirely), otherwise the sum
of the per-keyword contributions. -/
def kwScore (text titleLower : Str) (td : TopicData) : Int :=
  if td.exclude.any (fun ex => pyIn ex text) then 0
  else (td.keywords.map (kwAmount text titleLower)).sum

/-- The score of a topic as the spec words it: +3 per entity of that
topic occurring in the combined lowercased title+content, plus the
keyword score, minus 2 per configured negative term in the text for the
politics topic. -/
def score_spec (cfg : Config) (title content : Str) (tid : Str) : Int :=
  let text := lowerStr (title ++ ' ' :: content)
  let titleLower := lowerStr title
  3 * ((cfg.entityTopic.filter
          (fun e => pyIn e.1 text && decide (e.2 = tid))).length : Int)
    + (match List.lookup tid cfg.topics with
       | some td => kwScore text titleLower td
       | none => 0)
    + (if tid = politicsId then
        -2 * ((cfg.politicsNegative.filter (fun n => pyIn n text)).length : Int)
      else 0)

theorem pair_eq_of_snd {a : Str} {x y : Int} (h : x = y) : (a, x) = (a, y) := by
  rw [h]

theorem bump_mapform (topics : List (Str × TopicData)) (f : Str → Int)
    (k : Str) (d : Int) :
    bump (topics.map (fun p => (p.1, f p.1))) k d
      = topics.map (fun p => (p.1, f p.1 + if p.1 = k then d else 0)) := by
  unfold bump
  rw [List.map_map]
  apply List.map_congr_left
  intro p _
  by_cases h : p.1 = k <;> simp [h]

theorem entity_fold (text : Str) (topics : List (Str × TopicData)) :
    ∀ (ents : List (Str × Str)) (f : Str → Int),
      ents.foldl (fun m e => if pyIn e.1 text then bump m e.2 3 else m)
        (topics.map (fun p => (p.1, f p.1)))
      = topics.map (fun p => (p.1, f p.1 +
          3 * ((ents.filter (fun e => pyIn e.1 text && decide (e.2 = p.1))).length : Int)))
  | [], f => by
    simp only [List.foldl_nil, List.filter_nil, List.length_nil]
    apply List.map_congr_left
    intro p _
    apply pair_eq_of_snd
    simp
  | e :: ents, f => by
    rw [List.foldl_cons]
    by_cases he : pyIn e.1 text
    · rw [if_pos he, bump_mapform,
        entity_fold text topics ents (fun t => f t + if t = e.2 then 3 else 0)]
      apply List.map_congr_left
      intro p _
      apply pair_eq_of_snd
      by_cases hk : p.1 = e.2
      · have hfe : (e :: ents).filter (fun x => pyIn x.1 text && decide (x.2 = p.1))
            = e :: ents.filter (fun x => pyIn x.1 text && decide (x.2 = p.1)) := by
          rw [List.filter_cons, if_pos (by simp [he, hk.symm])]
        rw [hfe, if_pos hk, List.length_cons]
        push_cast
        ring
      · have hfe : (e :: ents).filter (fun x => pyIn x.1 text && decide (x.2 = p.1))
            = ents.filter (fun x => pyIn x.1 text && decide (x.2 = p.1)) := by
          have hd : decide (e.2 = p.1) = false :=
            decide_eq_false (fun hh : e.2 = p.1 => hk hh.symm)
          rw [List.filter_cons]
          simp only [hd, Bool.and_false, Bool.false_eq_true, if_false]
        rw [hfe, if_neg hk]
        ring
    · rw [if_neg he, entity_fold text topics ents f]
      apply List.map_congr_left
      intro p _
      apply pair_eq_of_snd
      have hfe : (e :: ents).filter (fun x => pyIn x.1 text && decide (x.2 = p.1))
          = ents.filter (fun x => pyIn x.1 text && decide (x.2 = p.1)) := by
        rw [List.filter_cons, if_neg (by simp [he])]
      rw [hfe]

theorem kwfold_mapform (text titleLower : Str) (topics : List (Str × TopicData))
    (k : Str) :
    ∀ (kws : List Str) (f : Str → Int),
      kws.foldl (fun m' kw =>
          let kwl := lowerStr kw
          if word_in_text kwl titleLower then bump m' k 2
          else if word_in_text kwl text then bump m' k 1
          else m')
        (topics.map (fun p => (p.1, f p.1)))
      = topics.map (fun p => (p.1, f p.1 +
          if p.1 = k then (kws.map (kwAmount text titleLower)).sum else 0))
  | [], f => by
    simp only [List.foldl_nil, List.map_nil, List.sum_nil, ite_self]
    apply List.map_congr_left
    intro p _
    apply pair_eq_of_snd
    simp
  | kw :: kws, f => by
    rw [List.foldl_cons]
    simp only []
    by_cases h2 : word_in_text (lowerStr kw) titleLower
    · rw [if_pos h2, bump_mapform,
        kwfold_mapform text titleLower topics k kws (fun t => f t + if t = k then 2 else 0)]
      apply List.map_congr_left
      intro p _
      apply pair_eq_of_snd
      have hamt : kwAmount text titleLower kw = 2 := by
        unfold kwAmount
        rw [if_pos h2]
      by_cases hk : p.1 = k
      · rw [if_pos hk, if_pos hk, if_pos hk, List.map_cons, List.sum_cons, hamt]
        ring
      · rw [if_neg hk, if_neg hk, if_neg hk]
        ring
    · rw [if_neg h2]
      by_cases h1 : word_in_text (lowerStr kw) text
      · rw [if_pos h1, bump_mapform,
          kwfold_mapform text titleLower topics k kws (fun t => f t + if t = k then 1 else 0)]
        apply List.map_congr_left
        intro p _
        apply pair_eq_of_snd
        have hamt : kwAmount text titleLower kw = 1 := by
          unfold kwAmount
          rw [if_neg h2, if_pos h1]
        by_cases hk : p.1 = k
        · rw [if_pos hk, if_pos hk, if_pos hk, List.map_cons, List.sum_cons, hamt]
          ring
        · rw [if_neg hk, if_neg hk, if_neg hk]
          ring
      · rw [if_neg h1, kwfold_mapform text titleLower topics k kws f]
        apply List.map_congr_left
        intro p _
        apply pair_eq_of_snd
        have hamt : kwAmount text titleLower kw = 0 := by
          unfold kwAmount
          rw [if_neg h2, if_neg h1]
        by_cases hk : p.1 = k
        · rw [if_pos hk, if_pos hk, List.map_cons, List.sum_cons, hamt]
          ring
        · rw [if_neg hk, if_neg hk]

theorem topicKwStep_mapform (text titleLower : Str)
    (topics : List (Str × TopicData)) (f : Str → Int)
    (entry : Str × TopicData) :
    topicKwStep text titleLower (topics.map (fun p => (p.1, f p.1))) entry
      = topics.map (fun p => (p.1, f p.1 +
          if p.1 = entry.1 then kwScore text titleLower entry.2 else 0)) := by
  unfold topicKwStep kwScore
  by_cases hex : entry.2.exclude.any (fun ex => pyIn ex text)
  · rw [if_pos hex]
    apply List.map_congr_left
    intro p _
    apply pair_eq_of_snd
    rw [if_pos hex]
    simp [apply_ite]
  · rw [if_neg hex, kwfold_mapform text titleLower topics entry.1 entry.2.keywords f]
    apply List.map_congr_left
    intro p _
    apply pair_eq_of_snd
    rw [if_neg hex]

theorem topics_fold (text titleLower : Str) (topics : List (Str × TopicData)) :
    ∀ (l : List (Str × TopicData)) (f : Str → Int),
      l.foldl (topicKwStep text titleLower) (topics.map (fun p => (p.1, f p.1)))
      = topics.map (fun p => (p.1, f p.1 +
          ((l.filter (fun e => decide (e.1 = p.1))).map
            (fun e => kwScore text titleLower e.2)).sum))
  | [], f => by
    simp only [List.foldl_nil, List.filter_nil, List.map_nil, List.sum_nil]
    apply List.map_congr_left
    intro p _
    apply pair_eq_of_snd
    simp
  | entry :: l, f => by
    rw [List.foldl_cons, topicKwStep_mapform text titleLower topics f entry,
      topics_fold text titleLower topics l
        (fun t => f t + if t = entry.1 then kwScore text titleLower entry.2 else 0)]
    apply List.map_congr_left
    intro p _
    apply pair_eq_of_snd
    by_cases hk : p.1 = entry.1
    · have hfe : (entry :: l).filter (fun e => decide (e.1 = p.1))
          = entry :: l.filter (fun e => decide (e.1 = p.1)) := by
        rw [List.filter_cons, if_pos (by simp [hk.symm])]
      rw [hfe, if_pos hk, List.map_cons, List.sum_cons]
      ring
    · have hfe : (entry :: l).filter (fun e => decide (e.1 = p.1))
          = l.filter (fun e => decide (e.1 = p.1)) := by
        have hd : decide (entry.1 = p.1) = false :=
          decide_eq_false (fun hh : entry.1 = p.1 => hk hh.symm)
        rw [List.filter_cons]
        simp only [hd, Bool.false_eq_true, if_false]
      rw [hfe, if_neg hk]
      ring

theorem filter_key_nodup {topics : List (Str × TopicData)}
    (h : (topics.map Prod.fst).Nodup) {p : Str × TopicData} (hp : p ∈ topics) :
    topics.filter (fun e => decide (e.1 = p.1)) = [p] := by
  induction topics with
  | nil => cases hp
  | cons q rest ih =>
    rw [List.map_cons, List.nodup_cons] at h
    rcases List.mem_cons.1 hp with rfl | hp'
    · rw [List.filter_cons, if_pos (by simp)]
      have hrest : rest.filter (fun e => decide (e.1 = p.1)) = [] := by
        rw [List.filter_eq_nil_iff]
        intro e he
        simp only [decide_eq_true_eq]
        intro hep
        exact h.1 (hep ▸ List.mem_map_of_mem Prod.fst he)
      rw [hrest]
    · have hq : ¬(q.1 = p.1) := by
        intro he
        exact h.1 (he ▸ List.mem_map_of_mem Prod.fst hp')
      rw [List.filter_cons, if_neg (by simp [hq])]
      exact ih h.2 hp'

theorem lookup_key_nodup {topics : List (Str × TopicData)}
    (h : (topics.map Prod.fst).Nodup) {p : Str × TopicData} (hp : p ∈ topics) :
    List.lookup p.1 topics = some p.2 := by
  induction topics with
  | nil => cases hp
  | cons q rest ih =>
    rw [List.map_cons, List.nodup_cons] at h
    rcases List.mem_cons.1 hp with rfl | hp'
    · rw [List.lookup_cons_self]
    · have hq : ¬(p.1 = q.1) := by
        intro he
        exact h.1 (he ▸ List.mem_map_of_mem Prod.fst hp')
      have hbeq : (p.1 == q.1) = false := by
        rw [beq_eq_false_iff_ne]
        exact hq
      rw [show q = (q.1, q.2) from rfl, List.lookup_cons, hbeq]
      exact ih h.2 hp'

/-- Claim C4: for every configuration, title and content, the scoring
stage of `detect_topic` assigns to each configured topic exactly the
spec's closed-form score: +3 per matching entity of the topic; keyword
scoring skipped entirely when an exclude term occurs, otherwise +2 per
keyword whole-word-matched in the title else +1 when matched in the full
text (never both); and −2 per present negative term for the politics
topic. -/
theorem computeScores_eq_spec (cfg : Config) (title content : Str) :
    computeScores cfg title content
      = cfg.topics.map (fun p => (p.1, score_spec cfg title content p.1)) := by
  unfold computeScores
  simp only []
  rw [entity_fold (lowerStr (title ++ ' ' :: content)) cfg.topics cfg.entityTopic
    (fun _ : Str => (0 : Int))]
  rw [topics_fold (lowerStr (title ++ ' ' :: content)) (lowerStr title) cfg.topics
    cfg.topics
    (fun t => (0 : Int) + 3 * ((cfg.entityTopic.filter
      (fun e => pyIn e.1 (lowerStr (title ++ ' ' :: content)) && decide (e.2 = t))).length : Int))]
  rw [List.map_map]
  apply List.map_congr_left
  intro p hp
  simp only [Function.comp_apply]
  have hlookup := lookup_key_nodup cfg.keysNodup hp
  have hfilter := filter_key_nodup cfg.keysNodup hp
  by_cases hpol : p.1 = politicsId
  · rw [if_pos hpol]
    apply pair_eq_of_snd
    unfold score_spec
    simp only []
    rw [hlookup, hfilter, if_pos hpol]
    simp only [List.map_cons, List.map_nil, List.sum_cons, List.sum_nil]
    ring
  · rw [if_neg hpol]
    apply pair_eq_of_snd
    unfold score_spec
    simp only []
    rw [hlookup, hfilter, if_neg hpol]
    simp only [List.map_cons, List.map_nil, List.sum_cons, List.sum_nil]
    ring

/-! ### Claim C3: when `detect_topic` returns `none` -/

/-- Claim C3: `detect_topic` returns `none` exactly when the strict
region gate rejects the text or no configured topic reaches the minimum
score floor of 2; in particular, once at least one topic scores ≥ 2 the
classifier returns some topic id regardless of the LLM outcomes (the
region gate runs before scoring, so the score condition is understood on
texts that pass the gate, as the left disjunct makes precise). -/
theorem detect_topic_none_iff (cfg : Config) (oracle : Str → LLMCall)
    (title content : Str) :
    detect_topic cfg oracle title content = none ↔
      (cfg.strictBelarusOnly = true ∧
        is_wrong_region cfg (lowerStr (title ++ ' ' :: content)) = true)
      ∨ (∀ p ∈ computeScores cfg title content, p.2 < 2) := by
  unfold detect_topic
  simp only []
  by_cases hgate :
      (cfg.strictBelarusOnly && is_wrong_region cfg (lowerStr (title ++ ' ' :: content))) = true
  · rw [if_pos hgate]
    rw [Bool.and_eq_true] at hgate
    exact iff_of_true rfl (Or.inl hgate)
  · rw [if_neg hgate]
    by_cases hemp :
        ((computeScores cfg title content).filter (fun p => decide (p.2 ≥ 2))).isEmpty = true
    · rw [if_pos hemp]
      refine iff_of_true rfl (Or.inr ?_)
      intro p hp
      rw [List.isEmpty_iff, List.filter_eq_nil_iff] at hemp
      have := hemp p hp
      simp only [decide_eq_true_eq] at this
      omega
    · rw [if_neg hemp]
      have hne : (computeScores cfg title content).filter (fun p => decide (p.2 ≥ 2)) ≠ [] := by
        intro h
        rw [List.isEmpty_iff] at hemp
        exact hemp h
      have hsne :
          List.insertionSort scoreGE
            ((computeScores cfg title content).filter (fun p => decide (p.2 ≥ 2))) ≠ [] := by
        intro h
        apply hne
        have hperm := List.perm_insertionSort scoreGE
          ((computeScores cfg title content).filter (fun p => decide (p.2 ≥ 2)))
        rw [h] at hperm
        exact (hperm.symm).eq_nil
      obtain ⟨top, rest, hs⟩ := List.exists_cons_of_ne_nil hsne
      rw [hs]
      simp only []
      constructor
      · intro h
        exfalso
        by_cases htop : top.2 ≥ cfg.highConfidenceThreshold
        · rw [if_pos htop] at h
          cases h
        · rw [if_neg htop] at h
          cases hfind : ((top :: rest).take 2).find?
              (fun p => validate_topic (oracle (topicNameOf cfg p.1))) with
          | some q => rw [hfind] at h; cases h
          | none => rw [hfind] at h; cases h
      · intro h
        rcases h with h | h
        · exfalso
          rw [h.1, h.2] at hgate
          exact hgate rfl
        · exfalso
          have htopmem : top ∈ List.insertionSort scoreGE
              ((computeScores cfg title content).filter (fun p => decide (p.2 ≥ 2))) := by
            rw [hs]
            exact List.mem_cons_self _ _
          have hmemf : top ∈ (computeScores cfg title content).filter
              (fun p => decide (p.2 ≥ 2)) :=
            (List.perm_insertionSort _ _).subset htopmem
          have h2 := List.of_mem_filter hmemf
          have h3 := h top (List.mem_of_mem_filter hmemf)
          simp only [decide_eq_true_eq] at h2
          omega

/-! ### Claim C1: behaviour of the LLM tie-break on call failures -/

/-- Amended claim C1: in the tie-break stage, a failed LLM call is
treated as *confirmation* (the `except` branch of `validate_topic`
returns `True`), so when the call for the top-ranked candidate fails,
`detect_topic` returns that candidate immediately instead of moving on. -/
theorem detect_topic_llm_failure_returns_top (cfg : Config)
    (oracle : Str → LLMCall) (title content : Str)
    (top : Str × Int) (rest : List (Str × Int))
    (hgate : (cfg.strictBelarusOnly &&
      is_wrong_region cfg (lowerStr (title ++ ' ' :: content))) = false)
    (hs : List.insertionSort scoreGE
        ((computeScores cfg title content).filter (fun p => decide (p.2 ≥ 2)))
      = top :: rest)
    (hconf : ¬ top.2 ≥ cfg.highConfidenceThreshold)
    (hfail : oracle (topicNameOf cfg top.1) = LLMCall.fail) :
    detect_topic cfg oracle title content = some top.1 := by
  unfold detect_topic
  simp only []
  rw [hgate]
  simp only [Bool.false_eq_true, if_false]
  have hne : ((computeScores cfg title content).filter
      (fun p => decide (p.2 ≥ 2))).isEmpty = false := by
    rw [List.isEmpty_eq_false_iff_exists_mem]
    have : top ∈ List.insertionSort scoreGE
        ((computeScores cfg title content).filter (fun p => decide (p.2 ≥ 2))) := by
      rw [hs]
      exact List.mem_cons_self _ _
    exact ⟨top, (List.perm_insertionSort _ _).subset this⟩
  rw [hne]
  simp only [Bool.false_eq_true, if_false]
  rw [hs]
  simp only []
  rw [if_neg hconf]
  have hvt : (fun p : Str × Int =>
      validate_topic (oracle (topicNameOf cfg p.1))) top = true := by
    show validate_topic (oracle (topicNameOf cfg top.1)) = true
    rw [hfail]
    rfl
  rw [List.take_succ_cons,
    List.find?_cons_of_pos (p := fun p : Str × Int =>
      validate_topic (oracle (topicNameOf cfg p.1))) _ hvt]

/-- A two-topic configuration witnessing the behaviour of the tie-break:
topic `t1` scores 3 via an entity, topic `t2` scores 2 via a title
keyword, and the high-confidence threshold is 4, so the LLM stage runs. -/
def cfgC1 : Config where
  topics :=
    [("t1".toList, ⟨"T1".toList, none, [], []⟩),
     ("t2".toList, ⟨"T2".toList, none, ["beta".toList], []⟩)]
  entityTopic := [("alpha".toList, "t1".toList)]
  politicsNegative := []
  belarusKeywords := []
  russiaRegions := []
  strictBelarusOnly := false
  highConfidenceThreshold := 4
  similarityThreshold := Rat.divInt 17 20
  blacklistDomains := []
  blacklistKeywords := []
  maxNewsAgeHours := 24
  keysNodup := by decide
  entitiesWF := by decide

/-- An LLM oracle whose call for `T1` fails and whose call for any other
topic answers yes. -/
def oracleC1 (name : Str) : LLMCall :=
  if name = "T1".toList then LLMCall.fail else LLMCall.ok "YES".toList

/-- The tie-break as claim C1 words it (for contrast only): a failed
call counts as "not confirmed" and the loop moves on. -/
def validate_topic_claimC1 (call : LLMCall) : Bool :=
  match call with
  | .fail => false
  | .ok r => pyIn "yes".toList (pyStrip (lowerStr r))

/-- `detect_topic` with the tie-break replaced by the claim's
fail-closed reading (for contrast only). -/
def detect_topic_claimC1 (cfg : Config) (oracle : Str → LLMCall)
    (title content : Str) : Option Str :=
  let text := lowerStr (title ++ ' ' :: content)
  if cfg.strictBelarusOnly && is_wrong_region cfg text then none
  else
    let scores := computeScores cfg title content
    let candidates := scores.filter (fun p => decide (p.2 ≥ 2))
    if candidates.isEmpty then none
    else
      match List.insertionSort scoreGE candidates with
      | [] => none
      | top :: rest =>
        if top.2 ≥ cfg.highConfidenceThreshold then some top.1
        else
          match (top :: rest).take 2 |>.find?
              (fun p => validate_topic_claimC1 (oracle (topicNameOf cfg p.1))) with
          | some p => some p.1
          | none => some top.1

/-- Counterexample to claim C1: with `cfgC1`/`oracleC1`, the call for
the top candidate `t1` fails, yet the code returns `t1` on the strength
of that failed call; under the claim's fail-closed reading the
classifier would have moved on and returned `t2`, whose call confirms. -/
theorem detect_topic_claimC1_counterexample :
    detect_topic cfgC1 oracleC1 "beta".toList "alpha".toList = some "t1".toList
    ∧ oracleC1 (topicNameOf cfgC1 "t1".toList) = LLMCall.fail
    ∧ validate_topic_claimC1 (oracleC1 (topicNameOf cfgC1 "t2".toList)) = true
    ∧ detect_topic_claimC1 cfgC1 oracleC1 "beta".toList "alpha".toList
        = some "t2".toList := by
  refine ⟨by decide, by decide, by decide, by decide⟩

/-- Witness for the amended claim C1 at the concrete configuration. -/
theorem detect_topic_llm_failure_returns_top_witness :
    detect_topic cfgC1 oracleC1 "beta".toList "alpha".toList = some "t1".toList :=
  detect_topic_llm_failure_returns_top cfgC1 oracleC1 "beta".toList "alpha".toList
    ("t1".toList, 3) [("t2".toList, 2)]
    (by decide) (by decide) (by decide) (by decide)

/-! ## Similarity engine (difflib `SequenceMatcher`) and dedup check -/

/-- One row of the dynamic-programming table of
`SequenceMatcher.find_longest_match`: `row[j]` is the length of the
longest common block ending at `a[i]`/`b[j]`. -/
def j2lenRow (ai : Char) (b : Str) (old : List Nat) : List Nat :=
  (List.range b.length).map (fun j =>
    if b.getD j ' ' = ai then (if j = 0 then 0 else old.getD (j - 1) 0) + 1 else 0)

/-- Scan of one table row updating the best block `(i, j, size)`:
a strictly longer block wins (CPython updates only on `k > bestsize`,
which yields the earliest maximal block). -/
def bestScan (row : List Nat) (i : Nat) (best : Nat × Nat × Nat) : Nat × Nat × Nat :=
  (List.range row.length).foldl (fun bst j =>
    let k := row.getD j 0
    if k > bst.2.2 then (i + 1 - k, j + 1 - k, k) else bst) best

/-- `SequenceMatcher(None, a, b).find_longest_match()` over the whole
sequences, translated from CPython difflib (the junk machinery is not
modelled: with `isjunk=None` it only acts through `autojunk`, which is
inert for sequences shorter than 200 elements). -/
def findLongestMatch (a b : Str) : Nat × Nat × Nat :=
  ((List.range a.length).foldl
    (fun st i =>
      let row := j2lenRow (a.getD i ' ') b st.1
      (row, bestScan row i st.2))
    (List.replicate b.length 0, (0, 0, 0))).2

/-- Total size of the matching blocks (`get_matching_blocks` recursion):
take the longest match, recurse on the pieces to its left and right.
The fuel argument dominates the recursion depth. -/
def matchedAux : Nat → Str → Str → Nat
  | 0, _, _ => 0
  | fuel + 1, a, b =>
    let m := findLongestMatch a b
    if m.2.2 = 0 then 0
    else
      m.2.2 + matchedAux fuel (a.take m.1) (b.take m.2.1)
        + matchedAux fuel (a.drop (m.1 + m.2.2)) (b.drop (m.2.1 + m.2.2))

/-- Number of matching elements between `a` and `b` per difflib. -/
def matchedTotal (a b : Str) : Nat := matchedAux (a.length + b.length + 1) a b

/-- `SequenceMatcher.ratio()`: the rational `2*M/T`, and 1 when both
strings are empty (`Rat.divInt` is exact division here, the denominator
being positive). -/
def smRatio (a b : Str) : ℚ :=
  if a.length + b.length = 0 then 1
  else Rat.divInt (2 * (matchedTotal a b : Int)) ((a.length : Int) + (b.length : Int))

/-- src/rss_parser.py `calculate_similarity`: difflib ratio of the
lowercased strings. -/
def calculate_similarity (t1 t2 : Str) : ℚ := smRatio (lowerStr t1) (lowerStr t2)

/-- src/rss_parser.py `is_similar_news`: similarity strictly above the
threshold. -/
def is_similar_news (threshold : ℚ) (t1 t2 : Str) : Bool :=
  decide (calculate_similarity t1 t2 > threshold)

/-- One row of the `news` table. -/
structure NewsRow where
  id : Nat
  title : Str
  summary : Str
  full_text : Str
  link : Str
  topic : Str
  published : Int
  fingerprint : Str
  important : Nat
  source : Str
  real_source : Str
  fetched_at : Int
  normalized_title : Str
deriving DecidableEq

/-- SQLite `LIKE` (ASCII case-insensitive, `%`/`_` wildcards). -/
def eqCI (c d : Char) : Bool := c.toLower == d.toLower

def likeMatchAux : Nat → Str → Str → Bool
  | 0, _, _ => false
  | fuel + 1, p, s =>
    match p with
    | [] => s.isEmpty
    | c :: p' =>
      if c = '%' then
        likeMatchAux fuel p' s ||
          (match s with
           | [] => false
           | _ :: s' => likeMatchAux fuel (c :: p') s')
      else
        match s with
        | [] => false
        | d :: s' => (if c = '_' then true else eqCI c d) && likeMatchAux fuel p' s'

/-- Every recursive step shrinks `|p| + |s|`, so this fuel is always
sufficient and the out-of-fuel branch is unreachable. -/
def likeMatch (p s : Str) : Bool := likeMatchAux (p.length + s.length + 1) p s

/-- `link.split('?')[0]` / `.split('#')[0]`. -/
def takeUntil (ch : Char) (s : Str) : Str := s.takeWhile (fun c => c ≠ ch)

/-- The cleaned link of `check_for_duplicates`: UTM parameters and
anchors stripped. -/
def clean_link_of (link : Str) : Str := takeUntil '#' (takeUntil '?' link)

/-- The exact-link short circuit of `check_for_duplicates`:
`link LIKE clean_link || '%' AND published >= datetime('now','-24 hours')`. -/
def exactLinkHit (now : Int) (db : List NewsRow) (link : Str) : Bool :=
  db.any (fun r =>
    likeMatch (clean_link_of link ++ ['%']) r.link
      && decide (r.published ≥ now - 86400))

/-- Candidate rows fetched by `check_for_duplicates`: the lookback
window, restricted to one topic when given. -/
def dupScope (now : Int) (db : List NewsRow) (topic : Option Str) : List NewsRow :=
  match topic with
  | some t => db.filter (fun r => decide (r.topic = t) && decide (r.published ≥ now - 86400))
  | none => db.filter (fun r => decide (r.published ≥ now - 86400))

/-- `row['normalized_title'] or normalize_title(row['title'])`
(Python `or`: NULL and the empty string both fall back to recomputing). -/
def storedNorm (r : NewsRow) : Str :=
  if r.normalized_title = [] then normalize_title r.title else r.normalized_title

/-- src/rss_parser.py `check_for_duplicates` (lines 237-272). -/
def check_for_duplicates (threshold : ℚ) (now : Int) (db : List NewsRow)
    (title : Str) (topic : Option Str) (link : Str) : Bool :=
  if exactLinkHit now db link then true
  else
    (dupScope now db topic).any (fun r =>
      is_similar_news threshold (normalize_title title) (storedNorm r))

/-- Claim C5: with no exact-link match in the window,
`check_for_duplicates` reports a duplicate exactly when some candidate
in scope has similarity ratio strictly greater than the threshold; in
particular a candidate whose ratio is below or exactly equal to the
threshold is never reported as a duplicate on its own. -/
theorem check_for_duplicates_similarity (threshold : ℚ) (now : Int)
    (db : List NewsRow) (title : Str) (topic : Option Str) (link : Str)
    (hx : exactLinkHit now db link = false) :
    check_for_duplicates threshold now db title topic link = true ↔
      ∃ r ∈ dupScope now db topic,
        calculate_similarity (normalize_title title) (storedNorm r) > threshold := by
  unfold check_for_duplicates
  rw [hx]
  simp only [Bool.false_eq_true, if_false, List.any_eq_true]
  constructor
  · rintro ⟨r, hr, hsim⟩
    refine ⟨r, hr, ?_⟩
    simpa [is_similar_news] using hsim
  · rintro ⟨r, hr, hsim⟩
    refine ⟨r, hr, ?_⟩
    simpa [is_similar_news] using hsim

/-- A stored row for the dedup witness (stored normalized title equals
the incoming one, different link, published inside the window). -/
def rowC5 : NewsRow where
  id := 1
  title := "Abc Def!".toList
  summary := []
  full_text := []
  link := "http://y.by/b".toList
  topic := "t1".toList
  published := 100000
  fingerprint := "fp1".toList
  important := 0
  source := "rss".toList
  real_source := "y.by".toList
  fetched_at := 100000
  normalized_title := "abc def".toList

set_option maxRecDepth 4000 in
/-- Witness for claim C5: a candidate with ratio 1 (> 17/20) and no
exact-link hit is reported as a duplicate. -/
theorem check_for_duplicates_similarity_witness :
    check_for_duplicates (Rat.divInt 17 20) 100000 [rowC5] "abc def".toList none
      "http://x.by/a".toList = true :=
  (check_for_duplicates_similarity (Rat.divInt 17 20) 100000 [rowC5] "abc def".toList
    none "http://x.by/a".toList (by decide)).mpr
    ⟨rowC5, by decide, by decide⟩

/-! ## Claim C6: retention pruning (src/rss_parser.py lines 482-494) -/

/-- `ORDER BY published DESC`: newest first. -/
def pubGE (a b : NewsRow) : Prop := b.published ≤ a.published

instance : DecidableRel pubGE := fun a b => inferInstanceAs (Decidable (b.published ≤ a.published))

instance : IsTotal NewsRow pubGE := ⟨fun a b => le_total b.published a.published⟩

instance : IsTrans NewsRow pubGE := ⟨fun _ _ _ h1 h2 => le_trans h2 h1⟩

/-- The subquery of the pruning statement:
`SELECT id FROM news WHERE topic = ? ORDER BY published DESC LIMIT cap`.
The unspecified order among equal `published` values is modelled as the
scan order (stable sort). -/
def keepIdsOf (db : List NewsRow) (topic : Str) (cap : Nat) : List Nat :=
  ((List.insertionSort pubGE
    (db.filter (fun r => decide (r.topic = topic)))).take cap).map (fun r => r.id)

/-- The pruning statement run per touched topic:
`DELETE FROM news WHERE topic = ? AND id NOT IN (subquery)`. -/
def pruneTopic (db : List NewsRow) (topic : Str) (cap : Nat) : List NewsRow :=
  db.filter (fun r =>
    !(decide (r.topic = topic) && !((keepIdsOf db topic cap).contains r.id)))

theorem nat_contains_iff (i : Nat) (L : List Nat) : L.contains i = true ↔ i ∈ L := by
  rw [List.contains_eq_any_beq, List.any_eq_true]
  constructor
  · rintro ⟨x, hx, he⟩
    rw [beq_iff_eq] at he
    exact he ▸ hx
  · intro h
    exact ⟨i, h, by simp⟩

/-- Claim C6: provided the table's ids are unique (its PRIMARY KEY
invariant), pruning a topic retains exactly `min cap n` of its `n` rows,
and every deleted row of the topic was published no later than every
retained row of the topic — i.e. the retained rows are the cap-many
most-recently-published ones. -/
theorem pruneTopic_retention (db : List NewsRow) (topic : Str) (cap : Nat)
    (hid : (db.map (fun r => r.id)).Nodup) :
    ((pruneTopic db topic cap).filter (fun r => decide (r.topic = topic))).length
        = min cap ((db.filter (fun r => decide (r.topic = topic))).length)
    ∧ ∀ r ∈ db, r.topic = topic → r ∉ pruneTopic db topic cap →
        ∀ q ∈ pruneTopic db topic cap, q.topic = topic →
          r.published ≤ q.published := by
  classical
  set T := db.filter (fun r => decide (r.topic = topic)) with hT
  set S := List.insertionSort pubGE T with hS
  have hKS : keepIdsOf db topic cap = (S.take cap).map (fun r => r.id) := by
    rw [keepIdsOf]
  set K := keepIdsOf db topic cap with hK
  have hperm : S.Perm T := List.perm_insertionSort pubGE T
  have hsorted : List.Sorted pubGE S := List.sorted_insertionSort pubGE T
  have hTid : (T.map (fun r => r.id)).Nodup := by
    rw [hT]
    exact ((List.filter_sublist db).map (fun r => r.id)).nodup hid
  have hSid : (S.map (fun r => r.id)).Nodup := by
    rw [(hperm.map (fun r => r.id)).nodup_iff]
    exact hTid
  have hsplit : S.take cap ++ S.drop cap = S := List.take_append_drop cap S
  have hdisj : ∀ x ∈ S.take cap, ∀ y ∈ S.drop cap, x.id ≠ y.id := by
    intro x hx y hy hxy
    have h1 : (S.take cap).map (fun r => r.id) ++ (S.drop cap).map (fun r => r.id)
        = S.map (fun r => r.id) := by
      rw [← List.map_append, hsplit]
    have h2 := hSid
    rw [← h1, List.nodup_append] at h2
    exact h2.2.2 (List.mem_map_of_mem _ hx)
      (by rw [hxy]; exact List.mem_map_of_mem _ hy)
  have hmem_take_of_keep : ∀ q ∈ S, q.id ∈ K → q ∈ S.take cap := by
    intro q hq hk
    rw [hKS] at hk
    obtain ⟨x, hx, hxq⟩ := List.mem_map.1 hk
    rw [← hsplit] at hq
    rcases List.mem_append.1 hq with hq | hq
    · exact hq
    · exact absurd hxq (hdisj x hx q hq)
  have hmem_drop_of_not : ∀ r ∈ S, r.id ∉ K → r ∈ S.drop cap := by
    intro r hr hk
    rw [← hsplit] at hr
    rcases List.mem_append.1 hr with hr | hr
    · exact absurd (by rw [hKS]; exact List.mem_map_of_mem _ hr) hk
    · exact hr
  constructor
  · have hff : (pruneTopic db topic cap).filter (fun r => decide (r.topic = topic))
        = T.filter (fun r => K.contains r.id) := by
      unfold pruneTopic
      rw [← hK, List.filter_filter, hT, List.filter_filter]
      apply List.filter_congr
      intro a _
      cases ht : decide (a.topic = topic) <;> cases hc : K.contains a.id <;>
        simp [ht, hc]
    rw [hff]
    have hlen : (T.filter (fun r => K.contains r.id)).length
        = (S.filter (fun r => K.contains r.id)).length :=
      ((hperm.filter (fun r => K.contains r.id)).length_eq).symm
    rw [hlen]
    have htake : (S.take cap).filter (fun r => K.contains r.id) = S.take cap := by
      rw [List.filter_eq_self]
      intro r hr
      rw [nat_contains_iff, hKS]
      exact List.mem_map_of_mem _ hr
    have hdrop : (S.drop cap).filter (fun r => K.contains r.id) = [] := by
      rw [List.filter_eq_nil_iff]
      intro r hr hc
      rw [nat_contains_iff, hKS] at hc
      obtain ⟨x, hx, hxr⟩ := List.mem_map.1 hc
      exact hdisj x hx r hr hxr
    calc (S.filter (fun r => K.contains r.id)).length
        = ((S.take cap ++ S.drop cap).filter (fun r => K.contains r.id)).length := by
          rw [hsplit]
      _ = (S.take cap).length := by
          rw [List.filter_append, htake, hdrop, List.append_nil]
      _ = min cap S.length := List.length_take cap S
      _ = min cap T.length := by rw [hperm.length_eq]
  · intro r hr hrt hrdrop q hq hqt
    have hrT : r ∈ T := by
      rw [hT, List.mem_filter]
      exact ⟨hr, by simp [hrt]⟩
    have hrS : r ∈ S := hperm.mem_iff.2 hrT
    have hrK : r.id ∉ K := by
      intro hin
      apply hrdrop
      unfold pruneTopic
      rw [List.mem_filter]
      refine ⟨hr, ?_⟩
      have hcont : (keepIdsOf db topic cap).contains r.id = true := by
        rw [← hK]
        exact (nat_contains_iff _ _).2 hin
      simp [hcont]
      exact Or.inr hin
    have hmemq := hq
    unfold pruneTopic at hmemq
    rw [List.mem_filter] at hmemq
    have hqdb : q ∈ db := hmemq.1
    have hqK : q.id ∈ K := by
      by_contra hc
      have hcf : (keepIdsOf db topic cap).contains q.id = false := by
        cases hck : (keepIdsOf db topic cap).contains q.id with
        | false => rfl
        | true =>
          exfalso
          apply hc
          rw [hK]
          exact (nat_contains_iff _ _).1 hck
      have h2 := hmemq.2
      rw [hcf] at h2
      simp [hqt] at h2
    have hqT : q ∈ T := by
      rw [hT, List.mem_filter]
      exact ⟨hqdb, by simp [hqt]⟩
    have hqS : q ∈ S := hperm.mem_iff.2 hqT
    have hqtake : q ∈ S.take cap := hmem_take_of_keep q hqS hqK
    have hrdropS : r ∈ S.drop cap := hmem_drop_of_not r hrS hrK
    have hpw : ∀ x ∈ S.take cap, ∀ y ∈ S.drop cap, pubGE x y := by
      have hsp := hsorted
      rw [List.Sorted, ← hsplit, List.pairwise_append] at hsp
      exact hsp.2.2
    exact hpw q hqtake r hrdropS

/-- Three same-topic rows with distinct ids and distinct publish times. -/
def rowC6 (i : Nat) (pub : Int) : NewsRow where
  id := i
  title := "t".toList
  summary := []
  full_text := []
  link := "http://y.by/b".toList
  topic := "t1".toList
  published := pub
  fingerprint := ("fp".toList ++ [Char.ofNat (48 + i)])
  important := 0
  source := "rss".toList
  real_source := "y.by".toList
  fetched_at := 0
  normalized_title := "t".toList

def dbC6 : List NewsRow := [rowC6 1 100, rowC6 2 300, rowC6 3 200]

/-- Witness for claim C6 on a concrete three-row table with cap 2. -/
theorem pruneTopic_retention_witness :
    ((pruneTopic dbC6 "t1".toList 2).filter
        (fun r => decide (r.topic = "t1".toList))).length
      = min 2 ((dbC6.filter (fun r => decide (r.topic = "t1".toList))).length)
    ∧ ∀ r ∈ dbC6, r.topic = "t1".toList → r ∉ pruneTopic dbC6 "t1".toList 2 →
        ∀ q ∈ pruneTopic dbC6 "t1".toList 2, q.topic = "t1".toList →
          r.published ≤ q.published :=
  pruneTopic_retention dbC6 "t1".toList 2 (by decide)

/-! ## Claim C2: newsletter statistics (src/database.py) -/

/-- One row of the `newsletter_stats` table. -/
structure StatsRow where
  newsletter_id : Int
  topic : Str
  total_news : Int
  important_news : Int
deriving DecidableEq

/-- src/database.py `update_newsletter_stats` (lines 120-130): one
`INSERT OR REPLACE` per topic of the stats dict.  The
`newsletter_stats` table (init_db, lines 69-77) declares no PRIMARY KEY
and no UNIQUE constraint, and SQLite's `OR REPLACE` clause only deletes
rows that would violate a uniqueness constraint, so every statement
simply appends a fresh row. -/
def update_newsletter_stats (table : List StatsRow) (newsletter_id : Int)
    (stats : List (Str × Int × Int)) : List StatsRow :=
  stats.foldl (fun t s => t ++ [⟨newsletter_id, s.1, s.2.1, s.2.2⟩]) table

/-- Claim C2 fails on the code: a second `update_newsletter_stats` call
for the same run and topic leaves **two** rows for `(runId, topic)`
instead of replacing the first — the table lacks the uniqueness
constraint `INSERT OR REPLACE` needs in order to replace. -/
theorem update_newsletter_stats_duplicates :
    ((update_newsletter_stats
        (update_newsletter_stats [] 1 [("politics".toList, 3, 1)])
        1 [("politics".toList, 4, 2)]).filter
      (fun r => decide (r.newsletter_id = 1)
        && decide (r.topic = "politics".toList))).length = 2 := by
  decide

/-! ## LLM analysis (src/llm.py `analyze_news` / `_force_facts`) -/

/-- A JSON value as far as the importance/summary fields are concerned
(floats are not modelled; the repository's prompts ask for `0 or 1`). -/
inductive JVal where
  | jnull : JVal
  | jbool : Bool → JVal
  | jint : Int → JVal
  | jstr : Str → JVal
deriving DecidableEq

/-- Python `str(...)` of such a value (`str(True) = "True"`,
`str(None) = "None"`, numbers in decimal). -/
def pyStr : JVal → Str
  | .jnull => "None".toList
  | .jbool true => "True".toList
  | .jbool false => "False".toList
  | .jint n =>
    if n < 0 then '-' :: (Nat.toDigits 10 n.natAbs)
    else Nat.toDigits 10 n.natAbs
  | .jstr s => s

/-- A parsed JSON object (Python dict), as an association list. -/
abbrev JObj := List (Str × JVal)

/-- Python `data.get(key, default)`. -/
def jGet (data : JObj) (key : Str) (dflt : JVal) : JVal :=
  match List.lookup key data with
  | some v => v
  | none => dflt

/-- Outcome of one `analyze`-style HTTP call: `fail` covers transport
errors, timeouts and unparsable JSON (`json.loads` raising inside the
`try`); `ok d` is a successful call whose `_extract_json` result is `d`
(`none` when no brace-delimited block was found). -/
inductive CallOut where
  | fail : CallOut
  | ok : Option JObj → CallOut
deriving DecidableEq

/-- The outcomes of the (up to) two LLM calls made by `analyze_news`:
the main prompt and the `_force_facts` fallback prompt. -/
structure AnalyzeOutcome where
  main : CallOut
  force : CallOut
deriving DecidableEq

/-- Result dict of `analyze_news`. -/
structure AnalysisResult where
  summary : Str
  important : Nat
deriving DecidableEq

/-- src/llm.py `_force_facts` (lines 111-143): a stricter prompt; the
summary is truncated to 1000 characters and replaced by `title[:300]`
when shorter than 50; the importance flag maps string forms `"1"` and
`"true"` — but **not** `"True"` — to 1. An empty dict is falsy in
Python, so it also falls through to the default. -/
def force_facts (title : Str) (call : CallOut) : AnalysisResult :=
  match call with
  | .fail => ⟨title.take 300, 0⟩
  | .ok none => ⟨title.take 300, 0⟩
  | .ok (some data) =>
    if data = [] then ⟨title.take 300, 0⟩
    else
      let summary0 := (pyStr (jGet data "summary".toList (.jstr []))).take 1000
      let summary := if summary0.length < 50 then title.take 300 else summary0
      let important : Nat :=
        if pyStr (jGet data "important".toList (.jint 0)) ∈
            ["1".toList, "true".toList] then 1 else 0
      ⟨summary, important⟩

/-- src/llm.py `analyze_news` (lines 41-109): on a successful call whose
response carries a JSON object, strip the summary and map the importance
value's string form through `("1", "true", "True")`; fall back to
`_force_facts` when there is no (or an empty) object, or when the
summary is shorter than 100 characters or merely repeats the title; on
any exception return `{summary: title[:300], important: 0}`. -/
def analyze_news (title _content : Str) (o : AnalyzeOutcome) : AnalysisResult :=
  match o.main with
  | .fail => ⟨title.take 300, 0⟩
  | .ok none => force_facts title o.force
  | .ok (some data) =>
    if data = [] then force_facts title o.force
    else
      let summary := pyStrip (pyStr (jGet data "summary".toList (.jstr [])))
      let important : Nat :=
        if pyStr (jGet data "important".toList (.jint 0)) ∈
            ["1".toList, "true".toList, "True".toList] then 1 else 0
      if summary.length < 100 ∨ lowerStr summary = (lowerStr title).take 100 then
        force_facts title o.force
      else
        ⟨summary, important⟩

theorem force_facts_important_01 (title : Str) (call : CallOut) :
    (force_facts title call).important = 0 ∨ (force_facts title call).important = 1 := by
  rcases call with _ | (_ | data)
  · simp [force_facts]
  · simp [force_facts]
  · simp only [force_facts]
    split
    · left; rfl
    · simp only []
      split
      · right; rfl
      · left; rfl

/-- Amended claim C10: `analyze_news` always returns an importance flag
in {0, 1}; on the primary parse the mapping is as claimed (string form
`"1"`, `"true"` or `"True"` ↦ 1, everything else ↦ 0), but on the
forced-facts fallback path only `"1"` and `"true"` map to 1 — a JSON
boolean `true` (string form `"True"`) maps to 0 there. -/
theorem analyze_news_important_amended (title content : Str) (o : AnalyzeOutcome) :
    ((analyze_news title content o).important = 0
      ∨ (analyze_news title content o).important = 1)
    ∧ (∀ data : JObj, o.main = .ok (some data) → data ≠ [] →
        ¬((pyStrip (pyStr (jGet data "summary".toList (.jstr [])))).length < 100
            ∨ lowerStr (pyStrip (pyStr (jGet data "summary".toList (.jstr []))))
              = (lowerStr title).take 100) →
        (analyze_news title content o).important
          = (if pyStr (jGet data "important".toList (.jint 0)) ∈
              ["1".toList, "true".toList, "True".toList] then 1 else 0))
    ∧ (∀ data : JObj, o.force = .ok (some data) → data ≠ [] →
        (force_facts title o.force).important
          = (if pyStr (jGet data "important".toList (.jint 0)) ∈
              ["1".toList, "true".toList] then 1 else 0)) := by
  refine ⟨?_, ?_, ?_⟩
  · rcases o with ⟨main, force⟩
    rcases main with _ | (_ | data)
    · simp [analyze_news]
    · simp only [analyze_news]
      exact force_facts_important_01 title force
    · simp only [analyze_news]
      split
      · exact force_facts_important_01 title force
      · rw [apply_ite AnalysisResult.important]
        split
        · exact force_facts_important_01 title force
        · simp only []
          split
          · right; rfl
          · left; rfl
  · intro data hmain hne hsum
    rcases o with ⟨main, force⟩
    simp only [] at hmain
    subst hmain
    simp only [analyze_news]
    rw [if_neg hne]
    rw [if_neg hsum]
  · intro data hforce hne
    rcases o with ⟨main, force⟩
    simp only [] at hforce
    subst hforce
    simp only [force_facts]
    rw [if_neg hne]

/-- A fallback response whose summary is long enough and whose
importance is the JSON boolean `true`. -/
def dataC10 : JObj :=
  [("summary".toList,
      JVal.jstr "0123456789012345678901234567890123456789012345678901234".toList),
   ("important".toList, JVal.jbool true)]

/-- Counterexample to claim C10 as stated: after a main response without
JSON, the fallback response carries `important: true` — its Python
string form is `"True"` — yet the returned flag is 0, because
`_force_facts` compares against `("1", "true")` only. -/
theorem analyze_news_claimC10_counterexample :
    pyStr (jGet dataC10 "important".toList (.jint 0)) = "True".toList
    ∧ (analyze_news "t".toList [] ⟨.ok none, .ok (some dataC10)⟩).important = 0 := by
  refine ⟨by decide, by decide⟩

/-- Witness for the amended claim C10: the main-path mapping applied at
a concrete response with `important: 1` yields flag 1, and the flag is
always in {0, 1}. -/
theorem analyze_news_important_amended_witness :
    ((analyze_news "t".toList []
        ⟨.ok (some [("summary".toList, JVal.jstr (List.replicate 120 'x')),
                    ("important".toList, JVal.jint 1)]),
          .fail⟩).important = 0
      ∨ (analyze_news "t".toList []
        ⟨.ok (some [("summary".toList, JVal.jstr (List.replicate 120 'x')),
                    ("important".toList, JVal.jint 1)]),
          .fail⟩).important = 1)
    ∧ (analyze_news "t".toList []
        ⟨.ok (some [("summary".toList, JVal.jstr (List.replicate 120 'x')),
                    ("important".toList, JVal.jint 1)]),
          .fail⟩).important
        = (if pyStr (jGet [("summary".toList, JVal.jstr (List.replicate 120 'x')),
              ("important".toList, JVal.jint 1)] "important".toList (.jint 0)) ∈
            ["1".toList, "true".toList, "True".toList] then 1 else 0) :=
  ⟨(analyze_news_important_amended "t".toList []
      ⟨.ok (some [("summary".toList, JVal.jstr (List.replicate 120 'x')),
                  ("important".toList, JVal.jint 1)]), .fail⟩).1,
   (analyze_news_important_amended "t".toList []
      ⟨.ok (some [("summary".toList, JVal.jstr (List.replicate 120 'x')),
                  ("important".toList, JVal.jint 1)]), .fail⟩).2.1
     _ rfl (by decide) (by decide)⟩

/-! ## The per-article pipeline (src/rss_parser.py `process_news_entry`) -/

/-- The text after the first `"//"`, if any (scheme-relative part). -/
def afterDoubleSlash : Str → Option Str
  | [] => none
  | '/' :: '/' :: rest => some rest
  | _ :: rest => afterDoubleSlash rest

/-- `urlparse(url).netloc` for the absolute `http(s)` URLs the pipeline
handles: the text between `"//"` and the next `/`, `?` or `#`. -/
def urlNetloc (u : Str) : Str :=
  match afterDoubleSlash u with
  | none => []
  | some rest => rest.takeWhile (fun c => !(c == '/' || c == '?' || c == '#'))

/-- `urlparse(url).path` for such URLs. -/
def urlPath (u : Str) : Str :=
  match afterDoubleSlash u with
  | none => u.takeWhile (fun c => !(c == '?' || c == '#'))
  | some rest =>
    (rest.dropWhile (fun c => !(c == '/' || c == '?' || c == '#'))).takeWhile
      (fun c => !(c == '?' || c == '#'))

/-- Drop a leading `www.`. -/
def stripWWW (d : Str) : Str :=
  if "www.".toList.isPrefixOf d then d.drop 4 else d

/-- src/rss_parser.py `is_blacklisted` (lines 38-64). -/
def is_blacklisted (cfg : Config) (url : Str) (title : Str) : Bool :=
  let domain := stripWWW (lowerStr (urlNetloc url))
  let path := lowerStr (urlPath url)
  let title_lower := if title.isEmpty then [] else lowerStr title
  cfg.blacklistDomains.any (fun b => pyIn b domain)
    || cfg.blacklistKeywords.any (fun k => pyIn k path)
    || (!title.isEmpty && cfg.blacklistKeywords.any (fun k => pyIn k title_lower))

/-- src/rss_parser.py `fingerprint` (lines 79-84):
`sha1("{domain}|{normalized_title[:100]}")`.  The sha1 hex digest is
modelled by its preimage (the hash is treated as injective; the claims
depend only on fingerprint equality). -/
def fingerprint (title link : Str) : Str :=
  lowerStr (urlNetloc link) ++ '|' :: (normalize_title title).take 100

/-- A feed entry as `process_news_entry` reads it: raw title and link,
and the parsed `published`/`updated` feed timestamps. -/
structure Entry where
  title : Str
  link : Str
  publishedParsed : Option Int
  updatedParsed : Option Int
deriving DecidableEq

/-- `published_parsed`, else `updated_parsed`, else none. -/
def resolvePublished (e : Entry) : Option Int :=
  match e.publishedParsed with
  | some t => some t
  | none => e.updatedParsed

/-- The outcomes of the pipeline's external calls: the wall clock, the
extracted article body (empty on extraction failure), the topic
validation oracle and the summarization call outcomes. -/
structure PipelineEnv where
  now : Int
  extractResult : Str
  detectOracle : Str → LLMCall
  analyzeOutcome : AnalyzeOutcome

/-- Lines 371-381 of `process_news_entry`: defaults
`important = 0, summary = title`; for non-google sources run
`analyze_news` and keep its summary unless falsy. -/
def summarizeStage (source title content : Str) (o : AnalyzeOutcome) : Str × Nat :=
  if source = "google".toList then (title, 0)
  else
    let analysis := analyze_news title content o
    (if analysis.summary = [] then title else analysis.summary, analysis.important)

/-- The values handed to the insert section. -/
structure ArticleData where
  title : Str
  link : Str
  topic : Str
  published : Int
  fingerprint : Str
  summary : Str
  content : Str
  important : Nat
  source : Str
  real_source : Str
  normalized_title : Str
deriving DecidableEq

/-- `AUTOINCREMENT`: a fresh id above every existing id. -/
def nextId (db : List NewsRow) : Nat := db.foldl (fun m r => max m r.id) 0 + 1

/-- The row built by the `INSERT` statement (lines 400-418), with its
truncations. -/
def mkRow (now : Int) (db : List NewsRow) (ad : ArticleData) : NewsRow where
  id := nextId db
  title := ad.title.take 500
  summary := ad.summary.take 1000
  full_text := ad.content.take 4000
  link := ad.link
  topic := ad.topic
  published := ad.published
  fingerprint := ad.fingerprint
  important := ad.important
  source := ad.source
  real_source := ad.real_source
  fetched_at := now
  normalized_title := ad.normalized_title.take 200

/-- `INSERT INTO news ...` under the `UNIQUE` fingerprint constraint:
a violation raises `IntegrityError`, modelled as `none`. -/
def insertNews (db : List NewsRow) (row : NewsRow) : Option (List NewsRow) :=
  if db.any (fun r => decide (r.fingerprint = row.fingerprint)) then none
  else some (db ++ [row])

/-- The lightweight result returned for aggregation. -/
structure PipeResult where
  id : Nat
  topic : Str
  important : Nat
deriving DecidableEq

/-- The lock-guarded insert section of `process_news_entry`
(lines 388-430): re-check duplicates with the resolved topic, then
insert.  A fingerprint-uniqueness violation propagates to the enclosing
`except` handler (line 432), which logs and returns `None`, leaving the
table unchanged — modelled by the `none` branch.  The whole section runs
under `db_lock`, so concurrent executions serialize; the model is one
such serialized execution. -/
def insertSection (threshold : ℚ) (now : Int) (db : List NewsRow)
    (ad : ArticleData) : Option PipeResult × List NewsRow :=
  if check_for_duplicates threshold now db ad.title (some ad.topic) ad.link then
    (none, db)
  else
    match insertNews db (mkRow now db ad) with
    | none => (none, db)
    | some db' => (some ⟨nextId db, ad.topic, ad.important⟩, db')

/-- The data carried from the early stages to summarization/insert. -/
structure Prepared where
  title : Str
  link : Str
  published : Int
  fp : Str
  content : Str
  topic : Str
deriving DecidableEq

/-- The stages of `process_news_entry` (lines 300-369) before
summarization: field validation, blacklist, publish date resolution,
age window, the lock-scoped fast fingerprint lookup, the first
(topic-less) duplicate check, content extraction and topic detection;
`none` when the entry is skipped. -/
def preGates (cfg : Config) (env : PipelineEnv) (db : List NewsRow)
    (entry : Entry) : Option Prepared :=
  let title := pyStrip entry.title
  let link := takeUntil '?' entry.link
  if title = [] ∨ link = [] then none
  else if is_blacklisted cfg link title then none
  else
    match resolvePublished entry with
    | none => none
    | some pub =>
      if pub < env.now - cfg.maxNewsAgeHours * 3600 then none
      else
        let fp := fingerprint title link
        if db.any (fun r => decide (r.fingerprint = fp)) then none
        else if check_for_duplicates cfg.similarityThreshold env.now db title
            none link then none
        else
          let content := env.extractResult
          match detect_topic cfg env.detectOracle title
              (if content ≠ [] then content.take 500 else title) with
          | none => none
          | some topic => some ⟨title, link, pub, fp, content, topic⟩

/-- src/rss_parser.py `process_news_entry` (lines 300-434), returning
the aggregation result and the table after the call. -/
def process_news_entry (cfg : Config) (env : PipelineEnv) (db : List NewsRow)
    (entry : Entry) (source : Str) : Option PipeResult × List NewsRow :=
  match preGates cfg env db entry with
  | none => (none, db)
  | some g =>
    let si := summarizeStage source g.title g.content env.analyzeOutcome
    insertSection cfg.similarityThreshold env.now db
      { title := g.title, link := g.link, topic := g.topic,
        published := g.published, fingerprint := g.fp, summary := si.1,
        content := g.content, important := si.2, source := source,
        real_source := lowerStr (urlNetloc g.link),
        normalized_title := normalize_title g.title }

/-! ### Claim C7: summarization failures never block the pipeline -/

/-- The main response carried no usable JSON object. -/
def mainNoData (o : AnalyzeOutcome) : Prop :=
  o.main = .ok none ∨ o.main = .ok (some [])

/-- The fallback response carried no usable JSON object. -/
def forceNoData (o : AnalyzeOutcome) : Prop :=
  o.force = .ok none ∨ o.force = .ok (some [])

/-- The LLM summarization step failed altogether: transport error or
timeout on the main call, or no JSON in the main response and the
fallback prompt also failing or yielding no JSON. -/
def analyzeFailed (o : AnalyzeOutcome) : Prop :=
  o.main = .fail ∨ (mainNoData o ∧ (o.force = .fail ∨ forceNoData o))

theorem analyze_news_failed_default (title content : Str) (o : AnalyzeOutcome)
    (h : analyzeFailed o) :
    analyze_news title content o = ⟨title.take 300, 0⟩ := by
  unfold analyzeFailed mainNoData forceNoData at h
  rcases o with ⟨main, force⟩
  simp only [] at h
  rcases h with h | ⟨hm, hf⟩
  · subst h
    simp [analyze_news]
  · have hforce : force_facts title force = ⟨title.take 300, 0⟩ := by
      rcases hf with hf | hf | hf <;> subst hf <;> simp [force_facts]
    rcases hm with hm | hm <;> subst hm <;> simp [analyze_news, hforce]

theorem preGates_some_title {cfg : Config} {env : PipelineEnv}
    {db : List NewsRow} {entry : Entry} {g : Prepared}
    (h : preGates cfg env db entry = some g) :
    g.title = pyStrip entry.title ∧ pyStrip entry.title ≠ [] := by
  unfold preGates at h
  simp only [] at h
  by_cases h1 : pyStrip entry.title = [] ∨ takeUntil '?' entry.link = []
  · rw [if_pos h1] at h
    cases h
  · rw [if_neg h1] at h
    by_cases h2 : is_blacklisted cfg (takeUntil '?' entry.link) (pyStrip entry.title) = true
    · rw [if_pos h2] at h
      cases h
    · rw [if_neg h2] at h
      cases hres : resolvePublished entry with
      | none =>
        rw [hres] at h
        cases h
      | some pub =>
        rw [hres] at h
        simp only [] at h
        by_cases h3 : pub < env.now - cfg.maxNewsAgeHours * 3600
        · rw [if_pos h3] at h
          cases h
        · rw [if_neg h3] at h
          by_cases h4 : (db.any fun r => decide (r.fingerprint
              = fingerprint (pyStrip entry.title) (takeUntil '?' entry.link))) = true
          · rw [if_pos h4] at h
            cases h
          · rw [if_neg h4] at h
            by_cases h5 : check_for_duplicates cfg.similarityThreshold env.now db
                (pyStrip entry.title) none (takeUntil '?' entry.link) = true
            · rw [if_pos h5] at h
              cases h
            · rw [if_neg h5] at h
              cases hdet : detect_topic cfg env.detectOracle (pyStrip entry.title)
                  (if env.extractResult ≠ [] then env.extractResult.take 500
                   else pyStrip entry.title) with
              | none =>
                rw [hdet] at h
                cases h
              | some topic =>
                rw [hdet] at h
                rw [Option.some.injEq] at h
                subst h
                exact ⟨rfl, fun he => h1 (Or.inl he)⟩

/-- Amended claim C7: for a non-google source, when the LLM
summarization fails in any of the listed ways, the article's summary
defaults to the **first 300 characters of the raw title** (the raw
title itself whenever it is at most 300 characters long), its
importance flag to 0, and the article still proceeds to the insert
stage: the call reduces to the insert section applied with exactly
those defaults. -/
theorem process_news_entry_llm_failure (cfg : Config) (env : PipelineEnv)
    (db : List NewsRow) (entry : Entry) (source : Str) (g : Prepared)
    (hg : preGates cfg env db entry = some g)
    (hfail : analyzeFailed env.analyzeOutcome)
    (hsrc : source ≠ "google".toList) :
    process_news_entry cfg env db entry source
      = insertSection cfg.similarityThreshold env.now db
          { title := g.title, link := g.link, topic := g.topic,
            published := g.published, fingerprint := g.fp,
            summary := g.title.take 300, content := g.content,
            important := 0, source := source,
            real_source := lowerStr (urlNetloc g.link),
            normalized_title := normalize_title g.title } := by
  have hsum : summarizeStage source g.title g.content env.analyzeOutcome
      = (g.title.take 300, 0) := by
    unfold summarizeStage
    rw [if_neg hsrc, analyze_news_failed_default _ _ _ hfail]
    simp only []
    have htne : g.title ≠ [] := by
      rw [(preGates_some_title hg).1]
      exact (preGates_some_title hg).2
    have hne : g.title.take 300 ≠ [] := by
      intro he
      rw [List.take_eq_nil_iff] at he
      rcases he with he | he
      · exact absurd he (by omega)
      · exact htne he
    rw [if_neg hne]
  unfold process_news_entry
  rw [hg]
  simp only []
  rw [hsum]

set_option maxRecDepth 8000 in
/-- Counterexample to claim C7 as stated: at a 301-character title and a
failing LLM, the summary is the title truncated to 300 characters, not
the raw title. -/
theorem summarizeStage_claimC7_counterexample :
    summarizeStage "rss".toList (List.replicate 301 'a') []
        ⟨CallOut.fail, CallOut.fail⟩
      = (List.replicate 300 'a', 0)
    ∧ List.replicate 300 'a' ≠ List.replicate 301 'a' := by
  constructor
  · decide
  · intro h
    have hlen := congrArg List.length h
    rw [List.length_replicate, List.length_replicate] at hlen
    omega

/-- Concrete pipeline inputs for the C7 witness: failing LLM, entry that
passes every gate and classifies as `t1`. -/
def entryC7 : Entry where
  title := "beta".toList
  link := "http://x.by/a?utm=1".toList
  publishedParsed := some 100000
  updatedParsed := none

def envC7 : PipelineEnv where
  now := 100000
  extractResult := "alpha".toList
  detectOracle := fun _ => LLMCall.ok "YES".toList
  analyzeOutcome := ⟨CallOut.fail, CallOut.fail⟩

def preparedC7 : Prepared where
  title := "beta".toList
  link := "http://x.by/a".toList
  published := 100000
  fp := "x.by|beta".toList
  content := "alpha".toList
  topic := "t1".toList

/-- Witness for the amended claim C7 at the concrete inputs. -/
theorem process_news_entry_llm_failure_witness :
    process_news_entry cfgC1 envC7 [] entryC7 "rss".toList
      = insertSection cfgC1.similarityThreshold envC7.now []
          { title := preparedC7.title, link := preparedC7.link,
            topic := preparedC7.topic, published := preparedC7.published,
            fingerprint := preparedC7.fp,
            summary := preparedC7.title.take 300, content := preparedC7.content,
            important := 0, source := "rss".toList,
            real_source := lowerStr (urlNetloc preparedC7.link),
            normalized_title := normalize_title preparedC7.title } :=
  process_news_entry_llm_failure cfgC1 envC7 [] entryC7 "rss".toList preparedC7
    (by decide) (Or.inl rfl) (by decide)

/-! ### Claim C9: race safety of the check-then-insert section -/

/-- Number of stored rows carrying a fingerprint. -/
def countFp (db : List NewsRow) (fp : Str) : Nat :=
  (db.filter (fun r => decide (r.fingerprint = fp))).length

/-- Claim C9: two workers whose prepared articles carry the same
fingerprint run their lock-guarded insert sections in some serial order
(the lock serializes them).  If the store had no row with that
fingerprint and the first worker's duplicate re-check passes, then the
first insert succeeds, the second yields no result row (either its
duplicate re-check fires, or its `INSERT` violates the unique
fingerprint constraint and the raised `IntegrityError` is absorbed by
the enclosing handler), and exactly one row with that fingerprint is
stored. -/
theorem insertSection_race (threshold : ℚ) (now : Int) (db : List NewsRow)
    (ad1 ad2 : ArticleData) (fp : Str)
    (h1 : ad1.fingerprint = fp) (h2 : ad2.fingerprint = fp)
    (h0 : countFp db fp = 0)
    (hdup1 : check_for_duplicates threshold now db ad1.title
      (some ad1.topic) ad1.link = false) :
    (insertSection threshold now db ad1).1.isSome = true
    ∧ countFp (insertSection threshold now db ad1).2 fp = 1
    ∧ (insertSection threshold now (insertSection threshold now db ad1).2 ad2).1 = none
    ∧ countFp (insertSection threshold now (insertSection threshold now db ad1).2 ad2).2 fp
        = 1 := by
  have hfilter0 : db.filter (fun r => decide (r.fingerprint = fp)) = [] := by
    have := h0
    unfold countFp at this
    exact List.length_eq_zero.1 this
  have hnofp : db.any (fun r => decide (r.fingerprint = (mkRow now db ad1).fingerprint))
      = false := by
    rw [show (mkRow now db ad1).fingerprint = fp from h1]
    rw [List.any_eq_false]
    intro r hr
    intro hcon
    have : r ∈ db.filter (fun r => decide (r.fingerprint = fp)) :=
      List.mem_filter.2 ⟨hr, hcon⟩
    rw [hfilter0] at this
    cases this
  have hins1 : insertSection threshold now db ad1
      = (some ⟨nextId db, ad1.topic, ad1.important⟩, db ++ [mkRow now db ad1]) := by
    unfold insertSection
    rw [hdup1]
    simp only [Bool.false_eq_true, if_false]
    unfold insertNews
    rw [hnofp]
    simp only [Bool.false_eq_true, if_false]
  have hcount1 : countFp (db ++ [mkRow now db ad1]) fp = 1 := by
    unfold countFp
    rw [List.filter_append, hfilter0, List.nil_append]
    simp [mkRow, h1]
  refine ⟨by rw [hins1]; rfl, by rw [hins1]; exact hcount1, ?_, ?_⟩
  · rw [hins1]
    simp only []
    unfold insertSection
    by_cases hdup2 : check_for_duplicates threshold now (db ++ [mkRow now db ad1])
        ad2.title (some ad2.topic) ad2.link
    · rw [if_pos hdup2]
    · rw [if_neg hdup2]
      have hany : (db ++ [mkRow now db ad1]).any
          (fun r => decide (r.fingerprint
            = (mkRow now (db ++ [mkRow now db ad1]) ad2).fingerprint)) = true := by
        rw [List.any_eq_true]
        refine ⟨mkRow now db ad1, List.mem_append_right _ (List.mem_singleton_self _), ?_⟩
        simp [mkRow, h1, h2]
      unfold insertNews
      rw [hany]
      simp only [if_true]
  · rw [hins1]
    simp only []
    unfold insertSection
    by_cases hdup2 : check_for_duplicates threshold now (db ++ [mkRow now db ad1])
        ad2.title (some ad2.topic) ad2.link
    · rw [if_pos hdup2]
      exact hcount1
    · rw [if_neg hdup2]
      have hany : (db ++ [mkRow now db ad1]).any
          (fun r => decide (r.fingerprint
            = (mkRow now (db ++ [mkRow now db ad1]) ad2).fingerprint)) = true := by
        rw [List.any_eq_true]
        refine ⟨mkRow now db ad1, List.mem_append_right _ (List.mem_singleton_self _), ?_⟩
        simp [mkRow, h1, h2]
      unfold insertNews
      rw [hany]
      simp only [if_true]
      exact hcount1

/-- Two prepared articles with the same fingerprint but different links
and titles (the second passes neither the exact-link nor the similarity
check conclusion; only the fingerprint ties them). -/
def adC9 (n : Nat) : ArticleData where
  title := ("story ".toList ++ Nat.toDigits 10 n)
  link := ("http://x.by/p".toList ++ Nat.toDigits 10 n)
  topic := "t1".toList
  published := 100000
  fingerprint := "x.by|story".toList
  summary := "s".toList
  content := []
  important := 0
  source := "rss".toList
  real_source := "x.by".toList
  normalized_title := "story".toList

/-- Witness for claim C9 at the concrete pair of articles. -/
theorem insertSection_race_witness :
    (insertSection (Rat.divInt 17 20) 100000 [] (adC9 1)).1.isSome = true
    ∧ countFp (insertSection (Rat.divInt 17 20) 100000 [] (adC9 1)).2
        "x.by|story".toList = 1
    ∧ (insertSection (Rat.divInt 17 20) 100000
        (insertSection (Rat.divInt 17 20) 100000 [] (adC9 1)).2 (adC9 2)).1 = none
    ∧ countFp (insertSection (Rat.divInt 17 20) 100000
        (insertSection (Rat.divInt 17 20) 100000 [] (adC9 1)).2 (adC9 2)).2
        "x.by|story".toList = 1 :=
  insertSection_race (Rat.divInt 17 20) 100000 [] (adC9 1) (adC9 2)
    "x.by|story".toList (by decide) (by decide) (by decide) (by decide)

end Tgbot
